import Mathlib

/-!
Verification of the FSDP parameter-group engine
(`torch/distributed/_composable/fsdp/_fsdp_param_group.py`).

The Python source is shallowly embedded: pure computations become Lean
functions, stateful methods become functions from the group state to a new
group state paired with a trace of the stream/collective side effects they
issue.  Python floats in the gradient divide factors are modelled by `ℚ`:
every division performed there is by a power of two on an integer operand,
which IEEE-754 doubles compute exactly, so the rational model agrees with
the float semantics for all realizable world sizes.
-/

namespace FSDP

/-! ## Mesh information (`_fsdp_common.FSDPMeshInfo` / `HSDPMeshInfo`)

Modelled from the spec: `_fsdp_common.py` is not under `src/`; the spec says a
mesh records a shard dimension and, for HSDP, additionally a replicate
dimension, each exposing a size. -/

inductive MeshInfo where
  | fsdp (shardMeshSize : Nat)
  | hsdp (shardMeshSize : Nat) (replicateMeshSize : Nat)
  deriving DecidableEq, Repr

def MeshInfo.shardMeshSize : MeshInfo → Nat
  | .fsdp s => s
  | .hsdp s _ => s

def MeshInfo.isHSDP : MeshInfo → Bool
  | .fsdp _ => false
  | .hsdp _ _ => true

def MeshInfo.replicateMeshSize : MeshInfo → Nat
  | .fsdp _ => 1
  | .hsdp _ r => r

/-- `data_parallel_world_size` as computed at the start of
`_init_grad_divide_factors`: starts at 1, multiplied by the shard mesh size,
and additionally by the replicate mesh size when the mesh is HSDP. -/
def MeshInfo.dataParallelWorldSize (m : MeshInfo) : Nat :=
  match m with
  | .fsdp s => 1 * s
  | .hsdp s r => 1 * s * r

/-! ## Gradient divide factors (`FSDPParamGroup._init_grad_divide_factors`) -/

/-- The loop guard of `_init_grad_divide_factors` at divide factor `F`:
`W % F == 0 and W / F > F`, the float comparison modelled over `ℚ`. -/
def gradFactorCond (W F : Nat) : Prop :=
  W % F = 0 ∧ (W : ℚ) / (F : ℚ) > (F : ℚ)

instance (W F : Nat) : Decidable (gradFactorCond W F) := by
  unfold gradFactorCond; infer_instance

/-- The `while` loop of `_init_grad_divide_factors`:
`factor = 1; while W % factor == 0 and W / factor > factor: factor *= 2`. -/
def gradDivideFactorAux (W factor : Nat) : Nat :=
  if h : gradFactorCond W factor then
    gradDivideFactorAux W (factor * 2)
  else
    factor
termination_by W - factor
decreasing_by
  obtain ⟨hmod, hdiv⟩ := h
  have hf : factor ≠ 0 := by
    rintro rfl
    rw [Nat.cast_zero, div_zero] at hdiv
    exact absurd hdiv (lt_irrefl 0)
  have hfpos : 0 < factor := Nat.pos_of_ne_zero hf
  have h2 : (factor : ℚ) * (factor : ℚ) < (W : ℚ) := by
    rw [gt_iff_lt, lt_div_iff₀ (by exact_mod_cast hfpos)] at hdiv
    exact hdiv
  have h3 : factor * factor < W := by exact_mod_cast h2
  have h4 : 2 * factor ≤ W := by nlinarith
  omega

/-- The final value of `factor` in `_init_grad_divide_factors`. -/
def gradPredivideFactorNat (W : Nat) : Nat :=
  gradDivideFactorAux W 1

/-- `_init_grad_divide_factors`: returns the pair
`(_grad_predivide_factor, _grad_postdivide_factor)`. -/
def initGradDivideFactors (mesh : MeshInfo) : ℚ × ℚ :=
  let dataParallelWorldSize := mesh.dataParallelWorldSize
  let factor := gradPredivideFactorNat dataParallelWorldSize
  ((factor : ℚ), (dataParallelWorldSize : ℚ) / (factor : ℚ))

/-- Characterization of the loop: starting from `2 ^ i` with enough fuel `n`,
it returns the smallest power of two `2 ^ m` (with `m ≥ i`) for which the
guard fails, every intermediate power of two satisfying the guard. -/
theorem gradDivideFactorAux_spec (W : Nat) :
    ∀ n i, W ≤ 2 ^ i + n →
      ∃ m, i ≤ m ∧ gradDivideFactorAux W (2 ^ i) = 2 ^ m ∧
        (∀ j, i ≤ j → j < m → gradFactorCond W (2 ^ j)) ∧
        ¬ gradFactorCond W (2 ^ m) := by
  intro n
  induction n with
  | zero =>
    intro i hW
    have hfail : ¬ gradFactorCond W (2 ^ i) := by
      rintro ⟨-, hlt⟩
      have hpos : (0 : ℚ) < (2 ^ i : Nat) := by positivity
      have hone : (1 : ℚ) ≤ ((2 ^ i : Nat) : ℚ) := by
        exact_mod_cast Nat.one_le_two_pow
      rw [gt_iff_lt, lt_div_iff₀ hpos] at hlt
      have hle : (W : ℚ) ≤ ((2 ^ i : Nat) : ℚ) := by
        exact_mod_cast (by omega : W ≤ 2 ^ i)
      nlinarith
    exact ⟨i, le_refl i, by rw [gradDivideFactorAux, dif_neg hfail],
      fun j hij hji => absurd hji (by omega), hfail⟩
  | succ n ih =>
    intro i hW
    by_cases hc : gradFactorCond W (2 ^ i)
    · have hstep : gradDivideFactorAux W (2 ^ i) = gradDivideFactorAux W (2 ^ (i + 1)) := by
        rw [gradDivideFactorAux, dif_pos hc, pow_succ]
      have hfuel : W ≤ 2 ^ (i + 1) + n := by
        have h1 : 1 ≤ 2 ^ i := Nat.one_le_two_pow
        have : 2 ^ (i + 1) = 2 * 2 ^ i := by rw [pow_succ]; ring
        omega
      obtain ⟨m, him, heq, hall, hfail⟩ := ih (i + 1) hfuel
      refine ⟨m, by omega, by rw [hstep, heq], ?_, hfail⟩
      intro j hij hjm
      rcases Nat.eq_or_lt_of_le hij with rfl | hlt
      · exact hc
      · exact hall j hlt hjm
    · exact ⟨i, le_refl i, by rw [gradDivideFactorAux, dif_neg hc],
        fun j hij hji => absurd hji (by omega), hc⟩

/-- The loop result is the smallest power of two failing the guard. -/
theorem gradPredivideFactorNat_spec (W : Nat) :
    ∃ m, gradPredivideFactorNat W = 2 ^ m ∧
      (∀ j, j < m → gradFactorCond W (2 ^ j)) ∧
      ¬ gradFactorCond W (2 ^ m) := by
  obtain ⟨m, _, heq, hall, hfail⟩ :=
    gradDivideFactorAux_spec W W 0 (by simp)
  exact ⟨m, by simpa [gradPredivideFactorNat] using heq,
    fun j hj => hall j (Nat.zero_le j) hj, hfail⟩

/-- The computed divide factor is positive. -/
theorem gradPredivideFactorNat_pos (W : Nat) : 0 < gradPredivideFactorNat W := by
  obtain ⟨m, heq, -, -⟩ := gradPredivideFactorNat_spec W
  rw [heq]
  exact Nat.pos_pow_of_pos m (by omega)

/-! ## Sharded and training states (`_fsdp_param.ShardedState`,
`_fsdp_common.TrainingState`)

Modelled from the spec: the defining files are not under `src/`; the spec says
`ShardedState` is two-valued and `TrainingState` four-valued. -/

inductive ShardedState where
  | SHARDED
  | UNSHARDED
  deriving DecidableEq, Repr

inductive TrainingState where
  | IDLE
  | FORWARD
  | PRE_BACKWARD
  | POST_BACKWARD
  deriving DecidableEq, Repr

/-! ## Parameters, collectives handles, and side-effect traces

Tensors, gradients, CUDA events, and all-gather buffers are opaque to the
group logic; they are modelled by identifiers. -/

/-- An accelerator synchronization event (`torch.cuda.Event`), by identity. -/
abbrev Event := Nat

/-- Handle returned by `foreach_all_gather` (`_fsdp_collectives.AllGatherResult`),
by identity.  Modelled from the spec: the defining file is not under `src/`;
the spec treats it as an opaque transport handle owning the gathered buffer. -/
structure AllGatherResult where
  id : Nat
  deriving DecidableEq, Repr

/-- `_fsdp_collectives.AllGatherState`: an all-gather result paired with its
copy-out completion event.  Modelled from the spec. -/
structure AllGatherState where
  allGatherResult : AllGatherResult
  event : Event
  deriving DecidableEq, Repr

/-- `_fsdp_collectives.AllGatherStateHolder`: a single-slot container with
`put` and `pop`.  Modelled from the spec: calling `put` when occupied is a
programming error and must be rejected. -/
structure AllGatherStateHolder where
  state : Option AllGatherState
  deriving DecidableEq, Repr

def AllGatherStateHolder.put (h : AllGatherStateHolder) (s : AllGatherState) :
    Except String AllGatherStateHolder :=
  match h.state with
  | some _ => .error "Expected the state holder to be empty"
  | none => .ok ⟨some s⟩

def AllGatherStateHolder.pop (h : AllGatherStateHolder) :
    Option AllGatherState × AllGatherStateHolder :=
  (h.state, ⟨none⟩)

/-- `_fsdp_param.FSDPParam`, restricted to the state the group logic reads and
writes.  Modelled from the spec: the defining file is not under `src/`;
`shardedState` is the parameter's sharded/unsharded state,
`unshardedGrad` is `unsharded_param.grad` (`none` when the gradient attribute
is null), `unshardedInitialized` records that `init_unsharded_param` has run. -/
structure FSDPParam where
  shardedState : ShardedState
  unshardedGrad : Option Nat
  unshardedInitialized : Bool
  deriving DecidableEq, Repr

/-- `FSDPParam.to_sharded`.  Modelled from the spec: restores the sharded
form, so the parameter's state becomes SHARDED. -/
def FSDPParam.toSharded (p : FSDPParam) : FSDPParam :=
  { p with shardedState := ShardedState.SHARDED }

/-- `FSDPParam.to_unsharded`.  Modelled from the spec: installs the unsharded
view, so the parameter's state becomes UNSHARDED. -/
def FSDPParam.toUnsharded (p : FSDPParam) : FSDPParam :=
  { p with shardedState := ShardedState.UNSHARDED }

/-- `FSDPParam.init_unsharded_param`.  Modelled from the spec: binds the
unsharded view into the autograd graph; idempotent after the first call. -/
def FSDPParam.initUnshardedParam (p : FSDPParam) : FSDPParam :=
  { p with unshardedInitialized := true }

/-- `FSDPParam.unsharded_grad_data`: the gradient tensor viewed for reduction;
accessed only when `unsharded_param.grad` is non-null.  Modelled from the
spec. -/
def FSDPParam.unshardedGradData (p : FSDPParam) : Option Nat :=
  p.unshardedGrad

/-- Stream and collective side effects issued by the group's methods.  Each
constructor records one call into the accelerator runtime or the collective
transport, in program order. -/
inductive Action where
  /-- `foreach_all_gather` launched, returning handle `r`. -/
  | launchAllGather (r : AllGatherResult) (asyncOp : Bool)
  /-- `foreach_all_gather_copy_out` on result `r`. -/
  | allGatherCopyOut (r : AllGatherResult)
  /-- `self.all_gather_copy_in_stream.wait_event(e)`. -/
  | allGatherCopyInStreamWaitEvent (e : Event)
  /-- `self.all_gather_stream.wait_event(e)`. -/
  | allGatherStreamWaitEvent (e : Event)
  /-- A fresh `torch.cuda.Event` recorded on the current stream. -/
  | recordEvent (e : Event)
  /-- `foreach_reduce_scatter` launched with the given gradients and divide
  factors, returning completion event `e`. -/
  | launchReduceScatter (grads : List Nat) (preFactor postFactor : ℚ) (e : Event)
  /-- `torch.cuda.current_stream().wait_event(e)` on the default stream. -/
  | defaultStreamWaitEvent (e : Event)
  deriving DecidableEq, Repr

/-- `_wait_all_gather_streams_on_event`: both all-gather streams wait on `e`. -/
def waitAllGatherStreamsOnEvent (e : Event) : List Action :=
  [Action.allGatherCopyInStreamWaitEvent e, Action.allGatherStreamWaitEvent e]

/-! ## The parameter group (`FSDPParamGroup`) -/

/-- The mutable state of an `FSDPParamGroup` that its runtime methods touch.
`nextId` is a source of fresh identifiers for events and all-gather buffers
allocated by the methods. -/
structure FSDPParamGroup where
  fsdpParams : List FSDPParam
  trainingState : TrainingState
  shardedState : ShardedState
  allGatherResult : Option AllGatherResult
  reduceScatterViewOutEvent : Option Event
  allGatherStateHolder : AllGatherStateHolder
  gradPredivideFactor : ℚ
  gradPostdivideFactor : ℚ
  nextId : Nat
  deriving DecidableEq, Repr

namespace FSDPParamGroup

/-- `_to_sharded`: when not already SHARDED, move every parameter to sharded
and set the group state. -/
def toShardedGroup (g : FSDPParamGroup) : FSDPParamGroup :=
  if g.shardedState ≠ ShardedState.SHARDED then
    { g with
      fsdpParams := g.fsdpParams.map FSDPParam.toSharded
      shardedState := ShardedState.SHARDED }
  else g

/-- `_to_unsharded`: when not already UNSHARDED, move every parameter to
unsharded and set the group state. -/
def toUnshardedGroup (g : FSDPParamGroup) : FSDPParamGroup :=
  if g.shardedState ≠ ShardedState.UNSHARDED then
    { g with
      fsdpParams := g.fsdpParams.map FSDPParam.toUnsharded
      shardedState := ShardedState.UNSHARDED }
  else g

/-- `reshard`. -/
def reshard (g : FSDPParamGroup) : FSDPParamGroup :=
  g.toShardedGroup

/-- `unshard(async_op)`: no-op when an all-gather is already pending or the
group is already UNSHARDED; otherwise launch `foreach_all_gather` and store
the result. -/
def unshard (g : FSDPParamGroup) (asyncOp : Bool) : FSDPParamGroup × List Action :=
  if g.allGatherResult.isSome then
    (g, [])
  else if g.shardedState = ShardedState.UNSHARDED then
    (g, [])
  else
    let r : AllGatherResult := ⟨g.nextId⟩
    ({ g with allGatherResult := some r, nextId := g.nextId + 1 },
     [Action.launchAllGather r asyncOp])

/-- `wait_for_unshard`: returns the new group state and the trace of issued
stream/collective operations, or an error if the single-slot holder rejects
the `put` (which, as proved below, never happens). -/
def waitForUnshard (g : FSDPParamGroup) :
    Except String (FSDPParamGroup × List Action) :=
  match g.allGatherResult with
  | none => .ok (g, [])
  | some r =>
    let (g1, tr1) :=
      if g.trainingState = TrainingState.FORWARD then
        let (prevAllGatherState, holder) := g.allGatherStateHolder.pop
        let g' := { g with allGatherStateHolder := holder }
        match prevAllGatherState with
        | some st => (g', waitAllGatherStreamsOnEvent st.event)
        | none => (g', [])
      else (g, [])
    let tr2 := [Action.allGatherCopyOut r]
    let g2 := { g1 with fsdpParams := g1.fsdpParams.map FSDPParam.initUnshardedParam }
    let g3 := g2.toUnshardedGroup
    let allGatherCopyOutEvent : Event := g3.nextId
    let g4 := { g3 with nextId := g3.nextId + 1 }
    let tr3 := [Action.recordEvent allGatherCopyOutEvent]
    if g.trainingState = TrainingState.FORWARD then
      match g4.allGatherStateHolder.put ⟨r, allGatherCopyOutEvent⟩ with
      | .error e => .error e
      | .ok holder =>
        .ok ({ g4 with allGatherStateHolder := holder, allGatherResult := none },
          tr1 ++ tr2 ++ tr3)
    else
      .ok ({ g4 with allGatherResult := none },
        tr1 ++ tr2 ++ tr3 ++ waitAllGatherStreamsOnEvent allGatherCopyOutEvent)

/-- The gradient-collecting loop of `_post_backward`: walking the parameters
in order, collect those whose `unsharded_param.grad` is non-null together
with their gradient data, nulling the `grad` attribute; returns
(`fsdp_params_with_grad`, `unsharded_grads`, updated parameter list). -/
def collectGrads : List FSDPParam → List FSDPParam × List Nat × List FSDPParam
  | [] => ([], [], [])
  | p :: ps =>
    let (withGrad, grads, ps') := collectGrads ps
    match p.unshardedGrad with
    | some _ =>
      (p :: withGrad, ((p.unshardedGradData).getD 0) :: grads,
       { p with unshardedGrad := none } :: ps')
    | none => (withGrad, grads, p :: ps')

/-- `_post_backward`: set POST_BACKWARD, harvest unsharded gradients,
reshard, and (when any gradient was collected) launch
`foreach_reduce_scatter`, storing its completion event. -/
def postBackward (g : FSDPParamGroup) : FSDPParamGroup × List Action :=
  let g0 := { g with trainingState := TrainingState.POST_BACKWARD }
  let (fsdpParamsWithGrad, unshardedGrads, params') := collectGrads g0.fsdpParams
  let g1 := ({ g0 with fsdpParams := params' }).toShardedGroup
  if fsdpParamsWithGrad.length = 0 then
    (g1, [])
  else
    let e : Event := g1.nextId
    ({ g1 with reduceScatterViewOutEvent := some e, nextId := g1.nextId + 1 },
     [Action.launchReduceScatter unshardedGrads
        g1.gradPredivideFactor g1.gradPostdivideFactor e])

/-- `finalize_backward`: run `_post_backward` if still UNSHARDED, make the
default stream wait on the reduce-scatter view-out event if one exists
(clearing the slot), and become IDLE. -/
def finalizeBackward (g : FSDPParamGroup) : FSDPParamGroup × List Action :=
  let (g1, tr1) :=
    if g.shardedState = ShardedState.UNSHARDED then g.postBackward else (g, [])
  let (g2, tr2) :=
    match g1.reduceScatterViewOutEvent with
    | some e =>
      ({ g1 with reduceScatterViewOutEvent := none },
       [Action.defaultStreamWaitEvent e])
    | none => (g1, [])
  ({ g2 with trainingState := TrainingState.IDLE }, tr1 ++ tr2)

/-! ### Projection lemmas for the sharded-state transitions -/

@[simp] theorem toShardedGroup_shardedState (g : FSDPParamGroup) :
    g.toShardedGroup.shardedState = ShardedState.SHARDED := by
  unfold toShardedGroup
  split
  · rfl
  · simp_all

@[simp] theorem toUnshardedGroup_shardedState (g : FSDPParamGroup) :
    g.toUnshardedGroup.shardedState = ShardedState.UNSHARDED := by
  unfold toUnshardedGroup
  split
  · rfl
  · simp_all

@[simp] theorem toShardedGroup_trainingState (g : FSDPParamGroup) :
    g.toShardedGroup.trainingState = g.trainingState := by
  unfold toShardedGroup; split <;> rfl

@[simp] theorem toUnshardedGroup_trainingState (g : FSDPParamGroup) :
    g.toUnshardedGroup.trainingState = g.trainingState := by
  unfold toUnshardedGroup; split <;> rfl

@[simp] theorem toShardedGroup_nextId (g : FSDPParamGroup) :
    g.toShardedGroup.nextId = g.nextId := by
  unfold toShardedGroup; split <;> rfl

@[simp] theorem toUnshardedGroup_nextId (g : FSDPParamGroup) :
    g.toUnshardedGroup.nextId = g.nextId := by
  unfold toUnshardedGroup; split <;> rfl

@[simp] theorem toShardedGroup_allGatherResult (g : FSDPParamGroup) :
    g.toShardedGroup.allGatherResult = g.allGatherResult := by
  unfold toShardedGroup; split <;> rfl

@[simp] theorem toUnshardedGroup_allGatherResult (g : FSDPParamGroup) :
    g.toUnshardedGroup.allGatherResult = g.allGatherResult := by
  unfold toUnshardedGroup; split <;> rfl

@[simp] theorem toShardedGroup_reduceScatterViewOutEvent (g : FSDPParamGroup) :
    g.toShardedGroup.reduceScatterViewOutEvent = g.reduceScatterViewOutEvent := by
  unfold toShardedGroup; split <;> rfl

@[simp] theorem toUnshardedGroup_reduceScatterViewOutEvent (g : FSDPParamGroup) :
    g.toUnshardedGroup.reduceScatterViewOutEvent = g.reduceScatterViewOutEvent := by
  unfold toUnshardedGroup; split <;> rfl

@[simp] theorem toShardedGroup_allGatherStateHolder (g : FSDPParamGroup) :
    g.toShardedGroup.allGatherStateHolder = g.allGatherStateHolder := by
  unfold toShardedGroup; split <;> rfl

@[simp] theorem toUnshardedGroup_allGatherStateHolder (g : FSDPParamGroup) :
    g.toUnshardedGroup.allGatherStateHolder = g.allGatherStateHolder := by
  unfold toUnshardedGroup; split <;> rfl

@[simp] theorem toShardedGroup_gradPredivideFactor (g : FSDPParamGroup) :
    g.toShardedGroup.gradPredivideFactor = g.gradPredivideFactor := by
  unfold toShardedGroup; split <;> rfl

@[simp] theorem toShardedGroup_gradPostdivideFactor (g : FSDPParamGroup) :
    g.toShardedGroup.gradPostdivideFactor = g.gradPostdivideFactor := by
  unfold toShardedGroup; split <;> rfl

end FSDPParamGroup

/-! ## Claims C1 and C2: gradient divide factors -/

theorem gradFactorCond_two_one : gradFactorCond 2 1 := by
  simp only [gradFactorCond]
  norm_num

theorem not_gradFactorCond_two_two : ¬ gradFactorCond 2 2 := by
  simp only [gradFactorCond]
  norm_num

theorem gradPredivideFactorNat_two : gradPredivideFactorNat 2 = 2 := by
  rw [gradPredivideFactorNat]
  rw [gradDivideFactorAux, dif_pos gradFactorCond_two_one]
  norm_num
  rw [gradDivideFactorAux, dif_neg not_gradFactorCond_two_two]

/-- C1 (counterexample): at `W = 2` the code computes pre-divide factor `2`,
yet `2` fails the condition `W % F == 0 and W / F > F` (since `2 / 2 = 1 ≤ 2`)
while the strictly smaller power of two `1` satisfies it; hence the computed
factor is not the largest power of two satisfying the condition (that largest
factor is `1`). -/
theorem initGradDivideFactors_C1_counterexample :
    (MeshInfo.fsdp 2).dataParallelWorldSize = 2 ∧
    (initGradDivideFactors (MeshInfo.fsdp 2)).1 = ((2 : Nat) : ℚ) ∧
    ¬ gradFactorCond 2 2 ∧
    gradFactorCond 2 1 := by
  refine ⟨rfl, ?_, not_gradFactorCond_two_two, gradFactorCond_two_one⟩
  simp only [initGradDivideFactors, MeshInfo.dataParallelWorldSize]
  norm_num [gradPredivideFactorNat_two]

/-- C1 (amended): for every world size `W ≥ 1`, the pre-divide factor computed
by `_init_grad_divide_factors` is the *smallest* power of two `F` for which
the condition `W % F == 0 and W / F > F` *fails* (every strictly smaller
power of two satisfies it), with `pre = float(F)` and `post = W / pre`. -/
theorem initGradDivideFactors_C1_amended (mesh : MeshInfo)
    (hW : 1 ≤ mesh.dataParallelWorldSize) :
    ∃ k : Nat,
      (initGradDivideFactors mesh).1 = ((2 ^ k : Nat) : ℚ) ∧
      (initGradDivideFactors mesh).2 =
        (mesh.dataParallelWorldSize : ℚ) / ((2 ^ k : Nat) : ℚ) ∧
      (∀ j, j < k → gradFactorCond mesh.dataParallelWorldSize (2 ^ j)) ∧
      ¬ gradFactorCond mesh.dataParallelWorldSize (2 ^ k) := by
  obtain ⟨m, heq, hall, hfail⟩ :=
    gradPredivideFactorNat_spec mesh.dataParallelWorldSize
  refine ⟨m, ?_, ?_, hall, hfail⟩
  · simp only [initGradDivideFactors, heq]
  · simp only [initGradDivideFactors, heq]

theorem initGradDivideFactors_C1_amended_witness :
    1 ≤ (MeshInfo.fsdp 2).dataParallelWorldSize ∧
    ∃ k : Nat,
      (initGradDivideFactors (MeshInfo.fsdp 2)).1 = ((2 ^ k : Nat) : ℚ) ∧
      (initGradDivideFactors (MeshInfo.fsdp 2)).2 =
        ((MeshInfo.fsdp 2).dataParallelWorldSize : ℚ) / ((2 ^ k : Nat) : ℚ) ∧
      (∀ j, j < k → gradFactorCond (MeshInfo.fsdp 2).dataParallelWorldSize (2 ^ j)) ∧
      ¬ gradFactorCond (MeshInfo.fsdp 2).dataParallelWorldSize (2 ^ k) :=
  ⟨by norm_num [MeshInfo.dataParallelWorldSize],
   initGradDivideFactors_C1_amended (MeshInfo.fsdp 2)
     (by norm_num [MeshInfo.dataParallelWorldSize])⟩

/-- C2: for every world size `W ≥ 1` (shard size times replicate size for
HSDP), the factors set by `_init_grad_divide_factors` satisfy
`_grad_predivide_factor * _grad_postdivide_factor == W` exactly. -/
theorem initGradDivideFactors_C2 (mesh : MeshInfo)
    (hW : 1 ≤ mesh.dataParallelWorldSize) :
    (initGradDivideFactors mesh).1 * (initGradDivideFactors mesh).2 =
      (mesh.dataParallelWorldSize : ℚ) := by
  have hpos := gradPredivideFactorNat_pos mesh.dataParallelWorldSize
  have hne : ((gradPredivideFactorNat mesh.dataParallelWorldSize : Nat) : ℚ) ≠ 0 := by
    exact_mod_cast Nat.pos_iff_ne_zero.mp hpos
  simp only [initGradDivideFactors]
  rw [mul_comm, div_mul_cancel₀ _ hne]

theorem initGradDivideFactors_C2_witness :
    1 ≤ (MeshInfo.hsdp 2 3).dataParallelWorldSize ∧
    (initGradDivideFactors (MeshInfo.hsdp 2 3)).1 *
        (initGradDivideFactors (MeshInfo.hsdp 2 3)).2 =
      ((MeshInfo.hsdp 2 3).dataParallelWorldSize : ℚ) :=
  ⟨by norm_num [MeshInfo.dataParallelWorldSize],
   initGradDivideFactors_C2 (MeshInfo.hsdp 2 3)
     (by norm_num [MeshInfo.dataParallelWorldSize])⟩

/-! ## Claim C3: `finalize_backward` -/

/-- C3: in `finalize_backward`: if the group is still UNSHARDED then
`_post_backward` is run (its state update and its issued operations come
first); if a reduce-scatter view-out event exists at the check (i.e., after
that possible `_post_backward`) then the default stream is made to wait on
that event and the event slot is cleared to `none`; and afterwards the
training state is IDLE. -/
theorem finalizeBackward_C3 (g : FSDPParamGroup) :
    g.finalizeBackward.1.trainingState = TrainingState.IDLE ∧
    g.finalizeBackward.1.reduceScatterViewOutEvent = none ∧
    (g.shardedState = ShardedState.UNSHARDED →
      (∃ rest, g.finalizeBackward.2 = g.postBackward.2 ++ rest) ∧
      g.finalizeBackward.1.fsdpParams = g.postBackward.1.fsdpParams ∧
      g.finalizeBackward.1.shardedState = g.postBackward.1.shardedState) ∧
    (∀ e : Event,
      (if g.shardedState = ShardedState.UNSHARDED then g.postBackward.1
       else g).reduceScatterViewOutEvent = some e →
      Action.defaultStreamWaitEvent e ∈ g.finalizeBackward.2) := by
  by_cases hs : g.shardedState = ShardedState.UNSHARDED
  · simp only [FSDPParamGroup.finalizeBackward, hs, if_pos]
    cases ho : g.postBackward.1.reduceScatterViewOutEvent with
    | none => simp [ho]
    | some e => simp [ho]
  · simp only [FSDPParamGroup.finalizeBackward, hs, if_neg, if_false]
    cases ho : g.reduceScatterViewOutEvent with
    | none => simp [ho, hs]
    | some e => simp [ho, hs]

/-! ## Helper lemmas about `wait_for_unshard` -/

/-- The group invariant of C6: the group's sharded state equals the sharded
state of every contained parameter. -/
def ShardedInv (g : FSDPParamGroup) : Prop :=
  ∀ p ∈ g.fsdpParams, p.shardedState = g.shardedState

theorem waitForUnshard_no_pending (g : FSDPParamGroup)
    (h : g.allGatherResult = none) : g.waitForUnshard = .ok (g, []) := by
  unfold FSDPParamGroup.waitForUnshard
  rw [h]

theorem toUnshardedGroup_param_states (g0 : FSDPParamGroup)
    (hg : ∀ p ∈ g0.fsdpParams, p.shardedState = g0.shardedState) :
    ∀ p ∈ g0.toUnshardedGroup.fsdpParams, p.shardedState = ShardedState.UNSHARDED := by
  unfold FSDPParamGroup.toUnshardedGroup
  split
  · intro p hp
    obtain ⟨q, -, rfl⟩ := List.mem_map.1 hp
    rfl
  · rename_i hstate
    rw [ne_eq, Decidable.not_not] at hstate
    intro p hp
    rw [hg p hp, hstate]

theorem waitForUnshard_pending (g : FSDPParamGroup) (r : AllGatherResult)
    (h : g.allGatherResult = some r) :
    ∃ g' tr, g.waitForUnshard = .ok (g', tr) ∧
      g'.shardedState = ShardedState.UNSHARDED ∧
      g'.allGatherResult = none ∧
      g'.trainingState = g.trainingState ∧
      (ShardedInv g → ShardedInv g') ∧
      ∃ e : Event, Action.recordEvent e ∈ tr ∧
        (g.trainingState = TrainingState.FORWARD →
          g'.allGatherStateHolder.state = some ⟨r, e⟩) ∧
        (g.trainingState ≠ TrainingState.FORWARD →
          g'.allGatherStateHolder = g.allGatherStateHolder ∧
          Action.allGatherCopyInStreamWaitEvent e ∈ tr ∧
          Action.allGatherStreamWaitEvent e ∈ tr) := by
  unfold FSDPParamGroup.waitForUnshard
  rw [h]
  by_cases ht : g.trainingState = TrainingState.FORWARD
  · cases hst : g.allGatherStateHolder.state with
    | none =>
      simp only [ht, AllGatherStateHolder.pop, hst, if_true,
        FSDPParamGroup.toUnshardedGroup_allGatherStateHolder,
        FSDPParamGroup.toUnshardedGroup_nextId]
      dsimp only [AllGatherStateHolder.put]
      refine ⟨_, _, rfl, by simp, by simp, by simp [ht], ?_, ?_⟩
      · intro hg p hp
        simp only at hp ⊢
        simp only [FSDPParamGroup.toUnshardedGroup_shardedState]
        refine toUnshardedGroup_param_states _ ?_ p hp
        intro q hq
        simp only [List.mem_map] at hq
        obtain ⟨q0, hq0, rfl⟩ := hq
        simpa [FSDPParam.initUnshardedParam] using hg q0 hq0
      · exact ⟨g.nextId, by simp, fun _ => by simp, fun hne => absurd rfl hne⟩
    | some st =>
      simp only [ht, AllGatherStateHolder.pop, hst, if_true,
        FSDPParamGroup.toUnshardedGroup_allGatherStateHolder,
        FSDPParamGroup.toUnshardedGroup_nextId]
      dsimp only [AllGatherStateHolder.put]
      refine ⟨_, _, rfl, by simp, by simp, by simp [ht], ?_, ?_⟩
      · intro hg p hp
        simp only at hp ⊢
        simp only [FSDPParamGroup.toUnshardedGroup_shardedState]
        refine toUnshardedGroup_param_states _ ?_ p hp
        intro q hq
        simp only [List.mem_map] at hq
        obtain ⟨q0, hq0, rfl⟩ := hq
        simpa [FSDPParam.initUnshardedParam] using hg q0 hq0
      · exact ⟨g.nextId, by simp, fun _ => by simp, fun hne => absurd rfl hne⟩
  · simp only [ht, if_false,
      FSDPParamGroup.toUnshardedGroup_allGatherStateHolder,
      FSDPParamGroup.toUnshardedGroup_nextId]
    refine ⟨_, _, rfl, by simp, by simp, by simp, ?_, ?_⟩
    · intro hg p hp
      simp only at hp ⊢
      simp only [FSDPParamGroup.toUnshardedGroup_shardedState]
      refine toUnshardedGroup_param_states _ ?_ p hp
      intro q hq
      simp only [List.mem_map] at hq
      obtain ⟨q0, hq0, rfl⟩ := hq
      simpa [FSDPParam.initUnshardedParam] using hg q0 hq0
    · refine ⟨g.nextId, by simp, by simp, fun _ => ⟨by simp, ?_, ?_⟩⟩
      · simp [waitAllGatherStreamsOnEvent]
      · simp [waitAllGatherStreamsOnEvent]

theorem waitForUnshard_clears_result (g g' : FSDPParamGroup) (tr : List Action)
    (h : g.waitForUnshard = .ok (g', tr)) : g'.allGatherResult = none := by
  cases hr : g.allGatherResult with
  | none =>
    rw [waitForUnshard_no_pending g hr] at h
    obtain ⟨rfl, -⟩ : g = g' ∧ [] = tr := by
      simpa using h
    exact hr
  | some r =>
    obtain ⟨g'', tr'', heq, -, hnone, -⟩ := waitForUnshard_pending g r hr
    rw [heq] at h
    obtain ⟨rfl, -⟩ : g'' = g' ∧ tr'' = tr := by
      simpa using h
    exact hnone

/-! ## Claim C4: `wait_for_unshard` with a pending all-gather result -/

/-- C4: for every call to `wait_for_unshard` with a pending
`_all_gather_result`: the sharded state transitions to UNSHARDED; if the
training state is FORWARD the (result, copy-out event) pair is published into
the single-slot `all_gather_state` holder, otherwise both all-gather streams
are made to wait on the copy-out event and the result is dropped; and in
every case `_all_gather_result` is `none` on return (so it is non-null only
while a copy-out is pending). -/
theorem waitForUnshard_C4 (g : FSDPParamGroup) (r : AllGatherResult)
    (h : g.allGatherResult = some r) :
    ∃ g' tr, g.waitForUnshard = .ok (g', tr) ∧
      g'.shardedState = ShardedState.UNSHARDED ∧
      g'.allGatherResult = none ∧
      ∃ e : Event, Action.recordEvent e ∈ tr ∧
        (g.trainingState = TrainingState.FORWARD →
          g'.allGatherStateHolder.state = some ⟨r, e⟩) ∧
        (g.trainingState ≠ TrainingState.FORWARD →
          g'.allGatherStateHolder = g.allGatherStateHolder ∧
          Action.allGatherCopyInStreamWaitEvent e ∈ tr ∧
          Action.allGatherStreamWaitEvent e ∈ tr) := by
  obtain ⟨g', tr, heq, hsh, hres, -, -, he⟩ := waitForUnshard_pending g r h
  exact ⟨g', tr, heq, hsh, hres, he⟩

/-! ## Helper lemmas about `_post_backward` -/

theorem collectGrads_withGrad (ps : List FSDPParam) :
    (FSDPParamGroup.collectGrads ps).1 =
      ps.filter (fun p => p.unshardedGrad.isSome) := by
  induction ps with
  | nil => rfl
  | cons p ps ih =>
    cases hp : p.unshardedGrad with
    | none => simp [FSDPParamGroup.collectGrads, hp, ih]
    | some gr => simp [FSDPParamGroup.collectGrads, hp, ih]

theorem collectGrads_grads (ps : List FSDPParam) :
    (FSDPParamGroup.collectGrads ps).2.1 =
      ps.filterMap FSDPParam.unshardedGrad := by
  induction ps with
  | nil => rfl
  | cons p ps ih =>
    cases hp : p.unshardedGrad with
    | none => simp [FSDPParamGroup.collectGrads, hp, ih]
    | some gr =>
      simp [FSDPParamGroup.collectGrads, FSDPParam.unshardedGradData, hp, ih]

theorem collectGrads_params (ps : List FSDPParam) :
    (FSDPParamGroup.collectGrads ps).2.2 =
      ps.map (fun p => { p with unshardedGrad := none }) := by
  induction ps with
  | nil => rfl
  | cons p ps ih =>
    cases hp : p.unshardedGrad with
    | none =>
      have hid : ({ p with unshardedGrad := none } : FSDPParam) = p := by
        cases p
        simp_all
      simp [FSDPParamGroup.collectGrads, hp, ih, hid]
    | some gr => simp [FSDPParamGroup.collectGrads, hp, ih]

theorem grads_empty_iff (ps : List FSDPParam) :
    (ps.filter (fun p => p.unshardedGrad.isSome)).length = 0 ↔
      ps.filterMap FSDPParam.unshardedGrad = [] := by
  induction ps with
  | nil => simp
  | cons p ps ih =>
    cases hp : p.unshardedGrad with
    | none => simpa [hp] using ih
    | some gr => simp [hp]

theorem toShardedGroup_param_states (g0 : FSDPParamGroup)
    (hg : ∀ p ∈ g0.fsdpParams, p.shardedState = g0.shardedState) :
    ∀ p ∈ g0.toShardedGroup.fsdpParams, p.shardedState = ShardedState.SHARDED := by
  unfold FSDPParamGroup.toShardedGroup
  split
  · intro p hp
    obtain ⟨q, -, rfl⟩ := List.mem_map.1 hp
    rfl
  · rename_i hstate
    rw [ne_eq, Decidable.not_not] at hstate
    intro p hp
    rw [hg p hp, hstate]

theorem toShardedGroup_param_grads (g0 : FSDPParamGroup)
    (hall : ∀ p ∈ g0.fsdpParams, p.unshardedGrad = none) :
    ∀ p ∈ g0.toShardedGroup.fsdpParams, p.unshardedGrad = none := by
  unfold FSDPParamGroup.toShardedGroup
  split
  · intro p hp
    obtain ⟨q, hq, rfl⟩ := List.mem_map.1 hp
    simpa [FSDPParam.toSharded] using hall q hq
  · exact hall

theorem postBackward_fields (g : FSDPParamGroup) :
    g.postBackward.1.shardedState = ShardedState.SHARDED ∧
    g.postBackward.1.fsdpParams =
      ({ g with
        fsdpParams := g.fsdpParams.map
          (fun p => { p with unshardedGrad := none }),
        trainingState := TrainingState.POST_BACKWARD } :
          FSDPParamGroup).toShardedGroup.fsdpParams := by
  constructor
  · unfold FSDPParamGroup.postBackward
    dsimp only
    split <;> simp
  · unfold FSDPParamGroup.postBackward
    dsimp only
    rw [collectGrads_params]
    split <;> rfl

theorem postBackward_shardedInv (g : FSDPParamGroup) (hg : ShardedInv g) :
    ShardedInv g.postBackward.1 := by
  intro p hp
  rw [(postBackward_fields g).2] at hp
  rw [(postBackward_fields g).1]
  refine toShardedGroup_param_states _ ?_ p hp
  intro q hq
  simp only [List.mem_map] at hq
  obtain ⟨q0, hq0, rfl⟩ := hq
  simpa using hg q0 hq0

/-! ## Claim C5: `_post_backward` -/

/-- C5: in `_post_backward`: every `fsdp_param` whose `unsharded_param.grad`
is non-null is collected together with its gradient and its `grad` attribute
is then null on every parameter; the group is resharded (state SHARDED); and
`foreach_reduce_scatter` with the pre/post divide factors is launched —
storing its completion event in `_reduce_scatter_view_out_event` — if and
only if at least one gradient was collected. -/
theorem postBackward_C5 (g : FSDPParamGroup) :
    g.postBackward.1.shardedState = ShardedState.SHARDED ∧
    (∀ p ∈ g.postBackward.1.fsdpParams, p.unshardedGrad = none) ∧
    (g.fsdpParams.filterMap FSDPParam.unshardedGrad = [] →
      g.postBackward.2 = [] ∧
      g.postBackward.1.reduceScatterViewOutEvent = g.reduceScatterViewOutEvent) ∧
    (g.fsdpParams.filterMap FSDPParam.unshardedGrad ≠ [] →
      ∃ e : Event, g.postBackward.1.reduceScatterViewOutEvent = some e ∧
        g.postBackward.2 =
          [Action.launchReduceScatter
            (g.fsdpParams.filterMap FSDPParam.unshardedGrad)
            g.gradPredivideFactor g.gradPostdivideFactor e]) := by
  refine ⟨(postBackward_fields g).1, ?_, ?_, ?_⟩
  · intro p hp
    rw [(postBackward_fields g).2] at hp
    refine toShardedGroup_param_grads _ ?_ p hp
    intro q hq
    simp only [List.mem_map] at hq
    obtain ⟨q0, -, rfl⟩ := hq
    rfl
  · intro hempty
    unfold FSDPParamGroup.postBackward
    dsimp only
    rw [collectGrads_withGrad]
    rw [if_pos ((grads_empty_iff g.fsdpParams).2 hempty)]
    simp
  · intro hne
    unfold FSDPParamGroup.postBackward
    dsimp only
    rw [collectGrads_withGrad, collectGrads_grads]
    rw [if_neg (fun hc => hne ((grads_empty_iff g.fsdpParams).1 hc))]
    refine ⟨g.nextId, by simp, by simp⟩

/-! ## Claim C6: the sharded-state invariant -/

/-- C6: the group's `_sharded_state` is always one of SHARDED and UNSHARDED,
and, assuming it equals the sharded state of every contained parameter,
every operation — `unshard`, `wait_for_unshard`, `reshard`, `_post_backward`,
`finalize_backward` — preserves that invariant, because `_to_sharded` and
`_to_unsharded` transition all contained parameters together with the group
field. -/
theorem shardedInvariant_C6 (g : FSDPParamGroup) (asyncOp : Bool)
    (hg : ShardedInv g) :
    (g.shardedState = ShardedState.SHARDED ∨
      g.shardedState = ShardedState.UNSHARDED) ∧
    ShardedInv (g.unshard asyncOp).1 ∧
    (∀ g' tr, g.waitForUnshard = .ok (g', tr) → ShardedInv g') ∧
    ShardedInv g.reshard ∧
    ShardedInv g.postBackward.1 ∧
    ShardedInv g.finalizeBackward.1 := by
  have hreshard : ∀ g0 : FSDPParamGroup, ShardedInv g0 → ShardedInv g0.toShardedGroup := by
    intro g0 hg0 p hp
    rw [FSDPParamGroup.toShardedGroup_shardedState]
    exact toShardedGroup_param_states g0 hg0 p hp
  refine ⟨?_, ?_, ?_, hreshard g hg, postBackward_shardedInv g hg, ?_⟩
  · cases g.shardedState
    · exact Or.inl rfl
    · exact Or.inr rfl
  · have hpreserve : (g.unshard asyncOp).1.fsdpParams = g.fsdpParams ∧
        (g.unshard asyncOp).1.shardedState = g.shardedState := by
      unfold FSDPParamGroup.unshard
      split
      · exact ⟨rfl, rfl⟩
      · split
        · exact ⟨rfl, rfl⟩
        · exact ⟨rfl, rfl⟩
    intro p hp
    rw [hpreserve.1] at hp
    rw [hpreserve.2]
    exact hg p hp
  · intro g' tr h
    cases hr : g.allGatherResult with
    | none =>
      rw [waitForUnshard_no_pending g hr] at h
      obtain ⟨rfl, -⟩ : g = g' ∧ [] = tr := by simpa using h
      exact hg
    | some r =>
      obtain ⟨g'', tr'', heq, -, -, -, hinv, -⟩ := waitForUnshard_pending g r hr
      rw [heq] at h
      obtain ⟨rfl, -⟩ : g'' = g' ∧ tr'' = tr := by simpa using h
      exact hinv hg
  · have hg1 : ShardedInv (if g.shardedState = ShardedState.UNSHARDED
        then g.postBackward else (g, [])).1 := by
      split
      · exact postBackward_shardedInv g hg
      · exact hg
    unfold FSDPParamGroup.finalizeBackward
    dsimp only
    split
    · intro p hp
      simpa using hg1 p (by simpa using hp)
    · intro p hp
      simpa using hg1 p (by simpa using hp)

/-! ## Claim C7: benign no-ops of `unshard` and `wait_for_unshard` -/

/-- C7: `unshard` is a no-op when `_all_gather_result` is already non-null or
the group is already UNSHARDED, and launches an all-gather only otherwise;
`wait_for_unshard` returns immediately with no state change when there is no
pending result, so a second consecutive `wait_for_unshard` is silently
idempotent. -/
theorem unshard_waitForUnshard_C7 (g : FSDPParamGroup) (asyncOp : Bool) :
    ((g.allGatherResult.isSome ∨ g.shardedState = ShardedState.UNSHARDED) →
      g.unshard asyncOp = (g, [])) ∧
    (g.allGatherResult = none → g.shardedState ≠ ShardedState.UNSHARDED →
      ∃ r, g.unshard asyncOp =
        ({ g with allGatherResult := some r, nextId := g.nextId + 1 },
         [Action.launchAllGather r asyncOp])) ∧
    (g.allGatherResult = none → g.waitForUnshard = .ok (g, [])) ∧
    (∀ g' tr, g.waitForUnshard = .ok (g', tr) →
      g'.waitForUnshard = .ok (g', [])) := by
  refine ⟨?_, ?_, waitForUnshard_no_pending g, ?_⟩
  · rintro (hsome | hunsh)
    · simp only [FSDPParamGroup.unshard, hsome, if_pos]
    · simp [FSDPParamGroup.unshard, hunsh]
  · intro hnone hunsh
    refine ⟨⟨g.nextId⟩, ?_⟩
    simp only [FSDPParamGroup.unshard, hnone, Option.isSome_none, Bool.false_eq_true,
      if_false, if_neg hunsh]
  · intro g' tr h
    exact waitForUnshard_no_pending g' (waitForUnshard_clears_result g g' tr h)

/-! ## Concrete sample states used by the witnesses -/

def sampleParam : FSDPParam :=
  { shardedState := ShardedState.UNSHARDED
    unshardedGrad := some 7
    unshardedInitialized := true }

def sampleGroup : FSDPParamGroup :=
  { fsdpParams := [sampleParam]
    trainingState := TrainingState.PRE_BACKWARD
    shardedState := ShardedState.UNSHARDED
    allGatherResult := some ⟨0⟩
    reduceScatterViewOutEvent := none
    allGatherStateHolder := ⟨none⟩
    gradPredivideFactor := 2
    gradPostdivideFactor := 1
    nextId := 1 }

def sampleGroupNone : FSDPParamGroup :=
  { sampleGroup with allGatherResult := none }

theorem finalizeBackward_C3_witness :
    sampleGroup.finalizeBackward.1.trainingState = TrainingState.IDLE ∧
    sampleGroup.finalizeBackward.1.reduceScatterViewOutEvent = none ∧
    (∃ rest, sampleGroup.finalizeBackward.2 = sampleGroup.postBackward.2 ++ rest) ∧
    Action.defaultStreamWaitEvent 1 ∈ sampleGroup.finalizeBackward.2 :=
  ⟨(finalizeBackward_C3 sampleGroup).1,
   (finalizeBackward_C3 sampleGroup).2.1,
   ((finalizeBackward_C3 sampleGroup).2.2.1 rfl).1,
   (finalizeBackward_C3 sampleGroup).2.2.2 1 rfl⟩

theorem waitForUnshard_C4_witness :
    sampleGroup.allGatherResult = some ⟨0⟩ ∧
    (∃ g' tr, sampleGroup.waitForUnshard = .ok (g', tr) ∧
      g'.shardedState = ShardedState.UNSHARDED ∧
      g'.allGatherResult = none ∧
      ∃ e : Event, Action.recordEvent e ∈ tr ∧
        (sampleGroup.trainingState = TrainingState.FORWARD →
          g'.allGatherStateHolder.state = some ⟨⟨0⟩, e⟩) ∧
        (sampleGroup.trainingState ≠ TrainingState.FORWARD →
          g'.allGatherStateHolder = sampleGroup.allGatherStateHolder ∧
          Action.allGatherCopyInStreamWaitEvent e ∈ tr ∧
          Action.allGatherStreamWaitEvent e ∈ tr)) :=
  ⟨rfl, waitForUnshard_C4 sampleGroup ⟨0⟩ rfl⟩

theorem postBackward_C5_witness :
    sampleGroup.fsdpParams.filterMap FSDPParam.unshardedGrad = [7] ∧
    sampleGroup.postBackward.1.shardedState = ShardedState.SHARDED ∧
    (∃ e : Event,
      sampleGroup.postBackward.1.reduceScatterViewOutEvent = some e ∧
      sampleGroup.postBackward.2 =
        [Action.launchReduceScatter
          (sampleGroup.fsdpParams.filterMap FSDPParam.unshardedGrad)
          sampleGroup.gradPredivideFactor sampleGroup.gradPostdivideFactor e]) :=
  ⟨rfl, (postBackward_C5 sampleGroup).1,
   (postBackward_C5 sampleGroup).2.2.2 (by intro h; simp [sampleGroup, sampleParam] at h)⟩

theorem shardedInvariant_C6_witness :
    ShardedInv sampleGroup ∧
    ShardedInv sampleGroup.reshard ∧
    ShardedInv sampleGroup.postBackward.1 ∧
    ShardedInv sampleGroup.finalizeBackward.1 :=
  have hg : ShardedInv sampleGroup := by
    intro p hp
    cases hp with
    | head => rfl
    | tail _ h => cases h
  ⟨hg, (shardedInvariant_C6 sampleGroup false hg).2.2.2.1,
   (shardedInvariant_C6 sampleGroup false hg).2.2.2.2.1,
   (shardedInvariant_C6 sampleGroup false hg).2.2.2.2.2⟩

theorem unshard_waitForUnshard_C7_witness :
    sampleGroupNone.unshard false = (sampleGroupNone, []) ∧
    sampleGroupNone.waitForUnshard = .ok (sampleGroupNone, []) :=
  ⟨(unshard_waitForUnshard_C7 sampleGroupNone false).1 (Or.inr rfl),
   (unshard_waitForUnshard_C7 sampleGroupNone false).2.2.1 rfl⟩

/-! ## Construction (`FSDPParamGroup.__init__`): parameter discovery and
dtype validation (`_get_param_module_infos`, `_init_mp_dtypes`) -/

/-- `nn.Parameter`, restricted to what construction reads: Python object
identity (`id`) and the original dtype.  Identity equality of parameters is
modelled by equality of this structure. -/
structure ParamT where
  id : Nat
  origDtype : Nat
  deriving DecidableEq, Repr

/-- An `nn.Module` tree: directly owned named parameters plus named child
submodules. -/
inductive ModuleT where
  | mk (ownParams : List (String × ParamT)) (children : List (String × ModuleT))

def ModuleT.ownParams : ModuleT → List (String × ParamT)
  | .mk ps _ => ps

def ModuleT.children : ModuleT → List (String × ModuleT)
  | .mk _ cs => cs

mutual

/-- `module.named_modules(remove_duplicate=False)`: the module itself
followed by all submodules in depth-first order, duplicates preserved. -/
def ModuleT.namedModules : ModuleT → List ModuleT
  | .mk ps cs => .mk ps cs :: ModuleT.namedModulesList cs

def ModuleT.namedModulesList : List (String × ModuleT) → List ModuleT
  | [] => []
  | c :: cs => c.2.namedModules ++ ModuleT.namedModulesList cs

end

/-- `_fsdp_common.ParamModuleInfo`.  Modelled from the spec: the defining file
is not under `src/`; it holds the owning submodule plus attribute name, plus
shared-binding aliases. -/
structure ParamModuleInfo where
  module : ModuleT
  paramName : String
  sharedModules : List ModuleT
  sharedParamNames : List String

/-- All `(param, param_name, submodule)` triples seen by the traversal in
`_get_param_module_infos`:
`named_modules(remove_duplicate=False)` and, per submodule,
`_named_parameters_with_duplicates(submodule, recurse=False)`. -/
def paramEntries (m : ModuleT) : List (ParamT × String × ModuleT) :=
  m.namedModules.flatMap (fun sm => sm.ownParams.map (fun np => (np.2, np.1, sm)))

/-- The parameters reachable in the module tree, duplicates preserved. -/
def ModuleT.allParams (m : ModuleT) : List ParamT :=
  (paramEntries m).map (·.1)

/-- Lookup in the `param_to_module_info` dict (keyed by parameter identity). -/
def lookupInfo : List (ParamT × ParamModuleInfo) → ParamT → Option ParamModuleInfo
  | [], _ => none
  | e :: es, p => if e.1 = p then some e.2 else lookupInfo es p

/-- In-place value update of the dict at key `p` (keys unchanged). -/
def updateInfo (d : List (ParamT × ParamModuleInfo)) (p : ParamT)
    (f : ParamModuleInfo → ParamModuleInfo) : List (ParamT × ParamModuleInfo) :=
  d.map (fun e => if e.1 = p then (e.1, f e.2) else e)

/-- The body of the traversal loop of `_get_param_module_infos`: for one
`(param, name, submodule)` entry, if the param is one of the given `params`,
either create its info (first sighting) or append shared-binding aliases. -/
def insertEntry (params : List ParamT) (d : List (ParamT × ParamModuleInfo))
    (e : ParamT × String × ModuleT) : List (ParamT × ParamModuleInfo) :=
  if e.1 ∈ params then
    match lookupInfo d e.1 with
    | none => d ++ [(e.1, ⟨e.2.2, e.2.1, [], []⟩)]
    | some _ => updateInfo d e.1 (fun i =>
        { i with
          sharedModules := i.sharedModules ++ [e.2.2]
          sharedParamNames := i.sharedParamNames ++ [e.2.1] })
  else d

/-- The `param_to_module_info` dict built by `_get_param_module_infos`. -/
def paramToModuleInfo (params : List ParamT) (m : ModuleT) :
    List (ParamT × ParamModuleInfo) :=
  (paramEntries m).foldl (insertEntry params) []

/-- `_get_param_module_infos`: raises when the dict has fewer entries than
`params`, otherwise returns the infos in the order of `params`. -/
def getParamModuleInfos (params : List ParamT) (m : ModuleT) :
    Except String (List ParamModuleInfo) :=
  if (paramToModuleInfo params m).length ≠ params.length then
    .error "Some parameters are not in the module tree"
  else
    params.mapM (fun p =>
      match lookupInfo (paramToModuleInfo params m) p with
      | some info => Except.ok info
      | none => Except.error "KeyError")

/-- `_init_mp_dtypes`: the set of original dtypes must be a singleton; its
unique element becomes `_orig_dtype`. -/
def initMpDtypes (params : List ParamT) : Except String Nat :=
  if ((params.map ParamT.origDtype).dedup).length ≠ 1 then
    .error "FSDP expects uniform original parameter dtype"
  else
    .ok (((params.map ParamT.origDtype).dedup).headD 0)

/-- The error behaviour of `FSDPParamGroup.__init__`: `_get_param_module_infos`
runs first, then `_init_mp_dtypes`; on success the computed `_orig_dtype` is
returned. -/
def FSDPParamGroupInit (params : List ParamT) (m : ModuleT) : Except String Nat :=
  match getParamModuleInfos params m with
  | .error e => .error e
  | .ok _ => initMpDtypes params

/-! ### The dict built by `_get_param_module_infos` -/

theorem updateInfo_keys (d : List (ParamT × ParamModuleInfo)) (p : ParamT)
    (f : ParamModuleInfo → ParamModuleInfo) :
    (updateInfo d p f).map Prod.fst = d.map Prod.fst := by
  unfold updateInfo
  rw [List.map_map]
  apply List.map_congr_left
  intro e _
  by_cases he : e.1 = p <;> simp [he]

theorem lookupInfo_eq_none_iff (d : List (ParamT × ParamModuleInfo)) (p : ParamT) :
    lookupInfo d p = none ↔ p ∉ d.map Prod.fst := by
  induction d with
  | nil => simp [lookupInfo]
  | cons e es ih =>
    simp only [lookupInfo, List.map_cons, List.mem_cons]
    by_cases he : e.1 = p
    · simp [he]
    · rw [if_neg he, ih]
      constructor
      · intro h
        rintro (rfl | hm)
        · exact he rfl
        · exact h hm
      · intro h hm
        exact h (Or.inr hm)

theorem insertEntry_keys_new (params : List ParamT)
    (d : List (ParamT × ParamModuleInfo)) (e : ParamT × String × ModuleT)
    (hp : e.1 ∈ params) (hl : lookupInfo d e.1 = none) :
    (insertEntry params d e).map Prod.fst = d.map Prod.fst ++ [e.1] := by
  unfold insertEntry
  rw [if_pos hp, hl]
  simp

theorem insertEntry_keys_old (params : List ParamT)
    (d : List (ParamT × ParamModuleInfo)) (e : ParamT × String × ModuleT)
    (h : e.1 ∉ params ∨ lookupInfo d e.1 ≠ none) :
    (insertEntry params d e).map Prod.fst = d.map Prod.fst := by
  unfold insertEntry
  by_cases hp : e.1 ∈ params
  · cases hle : lookupInfo d e.1 with
    | none =>
      rcases h with h | h
      · exact absurd hp h
      · exact absurd hle h
    | some i =>
      rw [if_pos hp]
      exact updateInfo_keys d e.1 _
  · rw [if_neg hp]

theorem foldl_insertEntry_keys (params : List ParamT)
    (es : List (ParamT × String × ModuleT)) :
    ∀ d : List (ParamT × ParamModuleInfo),
      (d.map Prod.fst).Nodup →
      ((es.foldl (insertEntry params) d).map Prod.fst).Nodup ∧
      ∀ q, q ∈ (es.foldl (insertEntry params) d).map Prod.fst ↔
        (q ∈ d.map Prod.fst ∨ (q ∈ params ∧ q ∈ es.map (·.1))) := by
  induction es with
  | nil =>
    intro d hd
    exact ⟨hd, fun q => by simp⟩
  | cons e es ih =>
    intro d hd
    rw [List.foldl_cons]
    by_cases hp : e.1 ∈ params
    · cases hle : lookupInfo d e.1 with
      | none =>
        have hkeys := insertEntry_keys_new params d e hp hle
        have hnodup : ((insertEntry params d e).map Prod.fst).Nodup := by
          rw [hkeys]
          refine List.Nodup.append hd (List.nodup_singleton e.1) ?_
          intro a ha hb
          rw [List.mem_singleton] at hb
          rw [hb] at ha
          exact (lookupInfo_eq_none_iff d e.1).1 hle ha
        obtain ⟨hn, hmem⟩ := ih (insertEntry params d e) hnodup
        refine ⟨hn, fun q => ?_⟩
        rw [hmem q, hkeys]
        simp only [List.mem_append, List.mem_singleton, List.map_cons, List.mem_cons,
          List.not_mem_nil, or_false]
        constructor
        · rintro ((hq | rfl) | ⟨hqp, hqe⟩)
          · exact Or.inl hq
          · exact Or.inr ⟨hp, Or.inl rfl⟩
          · exact Or.inr ⟨hqp, Or.inr hqe⟩
        · rintro (hq | ⟨hqp, (rfl | hqe)⟩)
          · exact Or.inl (Or.inl hq)
          · exact Or.inl (Or.inr rfl)
          · exact Or.inr ⟨hqp, hqe⟩
      | some i =>
        have hkey : e.1 ∈ d.map Prod.fst := by
          by_contra hq
          exact absurd ((lookupInfo_eq_none_iff d e.1).2 hq) (by rw [hle]; simp)
        have hkeys := insertEntry_keys_old params d e (Or.inr (by rw [hle]; simp))
        have hnodup : ((insertEntry params d e).map Prod.fst).Nodup := by
          rw [hkeys]; exact hd
        obtain ⟨hn, hmem⟩ := ih (insertEntry params d e) hnodup
        refine ⟨hn, fun q => ?_⟩
        rw [hmem q, hkeys]
        simp only [List.map_cons, List.mem_cons, List.not_mem_nil, or_false]
        constructor
        · rintro (hq | ⟨hqp, hqe⟩)
          · exact Or.inl hq
          · exact Or.inr ⟨hqp, Or.inr hqe⟩
        · rintro (hq | ⟨hqp, (rfl | hqe)⟩)
          · exact Or.inl hq
          · exact Or.inl hkey
          · exact Or.inr ⟨hqp, hqe⟩
    · have hkeys := insertEntry_keys_old params d e (Or.inl hp)
      have hnodup : ((insertEntry params d e).map Prod.fst).Nodup := by
        rw [hkeys]; exact hd
      obtain ⟨hn, hmem⟩ := ih (insertEntry params d e) hnodup
      refine ⟨hn, fun q => ?_⟩
      rw [hmem q, hkeys]
      simp only [List.map_cons, List.mem_cons, List.not_mem_nil, or_false]
      constructor
      · rintro (hq | ⟨hqp, hqe⟩)
        · exact Or.inl hq
        · exact Or.inr ⟨hqp, Or.inr hqe⟩
      · rintro (hq | ⟨hqp, (rfl | hqe)⟩)
        · exact Or.inl hq
        · exact absurd hqp hp
        · exact Or.inr ⟨hqp, hqe⟩

theorem paramToModuleInfo_keys (params : List ParamT) (m : ModuleT) :
    ((paramToModuleInfo params m).map Prod.fst).Nodup ∧
    ∀ q, q ∈ (paramToModuleInfo params m).map Prod.fst ↔
      (q ∈ params ∧ q ∈ m.allParams) := by
  obtain ⟨hn, hmem⟩ :=
    foldl_insertEntry_keys params (paramEntries m) [] (by simp)
  refine ⟨hn, fun q => ?_⟩
  rw [paramToModuleInfo, hmem q]
  simp [ModuleT.allParams]

theorem paramToModuleInfo_length_iff (params : List ParamT) (m : ModuleT) :
    (paramToModuleInfo params m).length = params.length ↔
      (params.Nodup ∧ ∀ p ∈ params, p ∈ m.allParams) := by
  obtain ⟨hn, hmem⟩ := paramToModuleInfo_keys params m
  have hlen : (paramToModuleInfo params m).length =
      ((paramToModuleInfo params m).map Prod.fst).length := by
    rw [List.length_map]
  set K := (paramToModuleInfo params m).map Prod.fst with hK
  have hsub : K.toFinset ⊆ params.toFinset := by
    intro q hq
    rw [List.mem_toFinset] at hq ⊢
    exact ((hmem q).1 hq).1
  have hKcard : K.toFinset.card = K.length := List.toFinset_card_of_nodup hn
  constructor
  · intro heq
    have hple : params.toFinset.card ≤ params.length := List.toFinset_card_le params
    have hcardle : K.toFinset.card ≤ params.toFinset.card := Finset.card_le_card hsub
    have hpcard : params.toFinset.card = params.length := by omega
    have hnodup : params.Nodup := by
      rw [List.card_toFinset] at hpcard
      have hsl : params.dedup.Sublist params := List.dedup_sublist params
      have : params.dedup = params := hsl.eq_of_length hpcard
      rw [← this]
      exact List.nodup_dedup params
    refine ⟨hnodup, fun p hp => ?_⟩
    by_contra hnr
    have hpk : p ∉ K.toFinset := by
      rw [List.mem_toFinset]
      intro hk
      exact hnr ((hmem p).1 hk).2
    have hss : K.toFinset ⊂ params.toFinset :=
      ⟨hsub, fun hcon => hpk (hcon (List.mem_toFinset.2 hp))⟩
    have := Finset.card_lt_card hss
    omega
  · intro ⟨hnodup, hall⟩
    have hKeq : K.toFinset = params.toFinset := by
      apply Finset.Subset.antisymm hsub
      intro q hq
      rw [List.mem_toFinset] at hq ⊢
      exact (hmem q).2 ⟨hq, hall q hq⟩
    have hpcard : params.toFinset.card = params.length :=
      List.toFinset_card_of_nodup hnodup
    have hcards : K.toFinset.card = params.toFinset.card := by rw [hKeq]
    omega

theorem mapM_lookup_ok (d : List (ParamT × ParamModuleInfo)) :
    ∀ params : List ParamT, (∀ p ∈ params, p ∈ d.map Prod.fst) →
      ∃ l, (params.mapM (fun p =>
        match lookupInfo d p with
        | some info => Except.ok info
        | none => (Except.error "KeyError" : Except String ParamModuleInfo)) : Except String (List ParamModuleInfo)) = .ok l := by
  intro params
  induction params with
  | nil => exact fun _ => ⟨[], rfl⟩
  | cons p ps ih =>
    intro hall
    have hp : p ∈ d.map Prod.fst := hall p (by simp)
    have hl : lookupInfo d p ≠ none := fun hc =>
      absurd hp (fun hm => by
        rw [lookupInfo_eq_none_iff] at hc
        exact hc hm)
    obtain ⟨l, hlok⟩ := ih (fun q hq => hall q (by simp [hq]))
    cases hle : lookupInfo d p with
    | none => exact absurd hle hl
    | some info =>
      refine ⟨info :: l, ?_⟩
      rw [List.mapM_cons, hle]
      simp only [hlok]
      rfl

theorem dedup_length_one_iff (l : List Nat) :
    l.dedup.length = 1 ↔ ∃ a, l ≠ [] ∧ ∀ x ∈ l, x = a := by
  constructor
  · intro h
    obtain ⟨a, ha⟩ := List.length_eq_one.1 h
    refine ⟨a, ?_, fun x hx => ?_⟩
    · intro hnil
      rw [hnil] at ha
      simp at ha
    · have : x ∈ l.dedup := List.mem_dedup.2 hx
      rw [ha] at this
      exact List.mem_singleton.1 this
  · rintro ⟨a, hne, hall⟩
    have hmem : ∀ x ∈ l.dedup, x = a := fun x hx =>
      hall x (List.mem_dedup.1 hx)
    have hnodup := List.nodup_dedup l
    cases hd : l.dedup with
    | nil => exact absurd ((List.dedup_eq_nil l).1 hd) hne
    | cons b tail =>
      rw [hd] at hmem hnodup
      have hb : b = a := hmem b (by simp)
      cases tail with
      | nil => rfl
      | cons c tail2 =>
        have hc : c = a := hmem c (by simp)
        rw [hb, hc] at hnodup
        simp at hnodup

/-! ## Claim C8: construction errors -/

/-- C8 (amended): constructing an `FSDPParamGroup` succeeds if and only if
the given parameters are pairwise distinct, every one of them is reachable in
the module tree of the bound module, and they are nonempty with one common
original dtype; and on success `_orig_dtype` is that common dtype.  (The
original claim omitted the pairwise-distinctness requirement, which the
counterexample shows is necessary.) -/
theorem FSDPParamGroupInit_C8_amended (params : List ParamT) (m : ModuleT) :
    ((∃ dt, FSDPParamGroupInit params m = .ok dt) ↔
      (params.Nodup ∧ (∀ p ∈ params, p ∈ m.allParams) ∧
        ∃ dt0, params ≠ [] ∧ ∀ p ∈ params, p.origDtype = dt0)) ∧
    (∀ dt, FSDPParamGroupInit params m = .ok dt →
      ∀ p ∈ params, p.origDtype = dt) := by
  have hdt : ∀ dt, initMpDtypes params = .ok dt →
      ∀ p ∈ params, p.origDtype = dt := by
    intro dt hok p hp
    unfold initMpDtypes at hok
    by_cases hc : ((params.map ParamT.origDtype).dedup).length ≠ 1
    · rw [if_pos hc] at hok
      exact absurd hok (by simp)
    · rw [if_neg hc] at hok
      rw [not_ne_iff] at hc
      obtain ⟨a, ha⟩ := List.length_eq_one.1 hc
      rw [ha] at hok
      simp only [List.headD] at hok
      obtain rfl : a = dt := by
        simpa using hok
      have : p.origDtype ∈ (params.map ParamT.origDtype).dedup :=
        List.mem_dedup.2 (List.mem_map_of_mem ParamT.origDtype hp)
      rw [ha] at this
      exact List.mem_singleton.1 this
  constructor
  · constructor
    · rintro ⟨dt, hok⟩
      unfold FSDPParamGroupInit at hok
      cases hg : getParamModuleInfos params m with
      | error e => rw [hg] at hok; exact absurd hok (by simp)
      | ok infos =>
        rw [hg] at hok
        have hlen : (paramToModuleInfo params m).length = params.length := by
          by_contra hc
          unfold getParamModuleInfos at hg
          rw [if_pos hc] at hg
          exact absurd hg (by simp)
        obtain ⟨hnodup, hall⟩ := (paramToModuleInfo_length_iff params m).1 hlen
        refine ⟨hnodup, hall, ?_⟩
        have hone : (params.map ParamT.origDtype).dedup.length = 1 := by
          by_contra hc
          unfold initMpDtypes at hok
          rw [if_pos hc] at hok
          exact absurd hok (by simp)
        obtain ⟨a, hne, hax⟩ := (dedup_length_one_iff _).1 hone
        refine ⟨a, fun hc => hne (by rw [hc]; rfl), fun p hp => ?_⟩
        exact hax p.origDtype (List.mem_map_of_mem ParamT.origDtype hp)
    · rintro ⟨hnodup, hall, dt0, hne, hdt0⟩
      have hlen : (paramToModuleInfo params m).length = params.length :=
        (paramToModuleInfo_length_iff params m).2 ⟨hnodup, hall⟩
      have hkeys := (paramToModuleInfo_keys params m).2
      obtain ⟨infos, hinfos⟩ :=
        mapM_lookup_ok (paramToModuleInfo params m) params
          (fun p hp => (hkeys p).2 ⟨hp, hall p hp⟩)
      have hg : getParamModuleInfos params m = .ok infos := by
        unfold getParamModuleInfos
        rw [if_neg (by rw [not_ne_iff]; exact hlen)]
        exact hinfos
      have hone : (params.map ParamT.origDtype).dedup.length = 1 :=
        (dedup_length_one_iff _).2
          ⟨dt0, fun hc => hne (List.map_eq_nil_iff.1 hc),
           fun x hx => by
            obtain ⟨p, hp, rfl⟩ := List.mem_map.1 hx
            exact hdt0 p hp⟩
      refine ⟨(params.map ParamT.origDtype).dedup.headD 0, ?_⟩
      unfold FSDPParamGroupInit
      rw [hg]
      unfold initMpDtypes
      rw [if_neg (by rw [not_ne_iff]; exact hone)]
  · intro dt hok
    unfold FSDPParamGroupInit at hok
    cases hg : getParamModuleInfos params m with
    | error e => rw [hg] at hok; exact absurd hok (by simp)
    | ok infos =>
      rw [hg] at hok
      exact hdt dt hok

def dupParam : ParamT := ⟨0, 0⟩

def dupModule : ModuleT := ModuleT.mk [("weight", dupParam)] []

/-- C8 (counterexample): with `params = [p, p]` listing the same parameter
twice, all given parameters share a single original dtype and every one of
them is reachable in the module tree, yet construction raises (the dict has
one entry against two requested params).  So construction can fail even when
neither of the claim's two error conditions holds. -/
theorem FSDPParamGroupInit_C8_counterexample :
    FSDPParamGroupInit [dupParam, dupParam] dupModule =
      .error "Some parameters are not in the module tree" ∧
    ([dupParam, dupParam].map ParamT.origDtype).dedup = [0] ∧
    dupParam ∈ dupModule.allParams := by
  refine ⟨rfl, rfl, ?_⟩
  show dupParam ∈ [dupParam]
  exact List.mem_singleton.2 rfl

def okParam : ParamT := ⟨1, 3⟩

def okModule : ModuleT := ModuleT.mk [("weight", okParam)] []

theorem FSDPParamGroupInit_C8_amended_witness :
    ∃ dt, FSDPParamGroupInit [okParam] okModule = .ok dt ∧ okParam.origDtype = dt := by
  obtain ⟨dt, hdt⟩ := (FSDPParamGroupInit_C8_amended [okParam] okModule).1.2
    ⟨List.nodup_singleton okParam,
     fun p hp => by
      obtain rfl : p = okParam := List.mem_singleton.1 hp
      show okParam ∈ [okParam]
      exact List.mem_singleton.2 rfl,
     ⟨3, by simp, fun p hp => by
      obtain rfl : p = okParam := List.mem_singleton.1 hp
      rfl⟩⟩
  exact ⟨dt, hdt, (FSDPParamGroupInit_C8_amended [okParam] okModule).2 dt hdt
    okParam (List.mem_singleton.2 rfl)⟩

/-! ## Forward-input rewriting (`_register_post_backward_hook`) and the hook
bridge (`RegisterPostBackwardHook`) -/

/-- A flattened entry of `args`/`kwargs`: either a tensor (with its
`requires_grad` flag) or any other object. -/
inductive Leaf where
  | tensor (id : Nat) (requiresGrad : Bool)
  | other (v : Nat)
  deriving DecidableEq, Repr

/-- `torch.is_tensor(obj) and obj.requires_grad`. -/
def Leaf.isTensorRequiringGrad : Leaf → Bool
  | .tensor _ rg => rg
  | .other _ => false

/-- A pytree of positional/keyword arguments. -/
inductive PyTree where
  | leaf (l : Leaf)
  | node (children : List PyTree)

mutual

/-- `torch.utils._pytree.tree_flatten`, leaf list only (the tree itself
serves as the spec).  Modelled from the spec: the pytree utility is an
external collaborator (its file is not under `src/`); it flattens a tree to
its leaves in left-to-right order. -/
def treeFlatten : PyTree → List Leaf
  | .leaf l => [l]
  | .node cs => treeFlattenList cs

def treeFlattenList : List PyTree → List Leaf
  | [] => []
  | t :: ts => treeFlatten t ++ treeFlattenList ts

end

mutual

/-- `torch.utils._pytree.tree_unflatten`: rebuild a tree with the given
spec (the first argument), consuming leaves from the list and returning the
unconsumed remainder.  Modelled from the spec, as for `treeFlatten`. -/
def treeUnflatten : PyTree → List Leaf → PyTree × List Leaf
  | .leaf _, [] => (.leaf (.other 0), [])
  | .leaf _, x :: rest => (.leaf x, rest)
  | .node cs, xs =>
    let r := treeUnflattenList cs xs
    (.node r.1, r.2)

def treeUnflattenList : List PyTree → List Leaf → List PyTree × List Leaf
  | [], xs => ([], xs)
  | t :: ts, xs =>
    let r1 := treeUnflatten t xs
    let r2 := treeUnflattenList ts r1.2
    (r1.1 :: r2.1, r2.2)

end

/-- The autograd context of `RegisterPostBackwardHook`: `ctx.param_group`. -/
structure HookContext where
  paramGroup : FSDPParamGroup

/-- `RegisterPostBackwardHook.forward`: saves the param group on the context
and returns the input tensors unchanged. -/
def RegisterPostBackwardHook.forward (paramGroup : FSDPParamGroup)
    (inputs : List Leaf) : HookContext × List Leaf :=
  ({ paramGroup := paramGroup }, inputs)

/-- `RegisterPostBackwardHook.backward`: runs `_post_backward` on the bound
param group (returning its state update and trace) and returns
`(None,) + grads`. -/
def RegisterPostBackwardHook.backward (ctx : HookContext) (grads : List Nat) :
    (FSDPParamGroup × List Action) × (Option Unit × List Nat) :=
  (ctx.paramGroup.postBackward, (none, grads))

/-- The index-collection loop of `_register_post_backward_hook`
(`for i, obj in enumerate(args_kwargs_list)`), started at index `i`:
returns (`inp_tensor_indices`, `inp_tensors`). -/
def collectGradTensors : List Leaf → Nat → List Nat × List Leaf
  | [], _ => ([], [])
  | l :: ls, i =>
    let r := collectGradTensors ls (i + 1)
    if l.isTensorRequiringGrad then (i :: r.1, l :: r.2) else r

/-- `for inp_tensor_idx, inp_tensor in zip(inp_tensor_indices, inp_tensors):
args_kwargs_list[inp_tensor_idx] = inp_tensor`. -/
def replaceAtIndices : List Leaf → List Nat → List Leaf → List Leaf
  | xs, [], _ => xs
  | xs, _ :: _, [] => xs
  | xs, i :: idxs, t :: ts => replaceAtIndices (xs.set i t) idxs ts

/-- `FSDPParamGroup._register_post_backward_hook`.  `gradEnabled` models
`torch.is_grad_enabled()`.  Returns the (possibly rewritten) `args`/`kwargs`
and, when a hook op was inserted, the tensors routed through it. -/
def FSDPParamGroup.registerPostBackwardHook (g : FSDPParamGroup)
    (gradEnabled : Bool) (args kwargs : PyTree) :
    (PyTree × PyTree) × Option (List Leaf) :=
  if ¬ gradEnabled then ((args, kwargs), none)
  else
    let argsList := treeFlatten args
    let kwargsList := treeFlatten kwargs
    let argsKwargsList := argsList ++ kwargsList
    let collected := collectGradTensors argsKwargsList 0
    let inpTensors := collected.2
    if inpTensors.length = 0 then ((args, kwargs), none)
    else
      let outTensors := (RegisterPostBackwardHook.forward g inpTensors).2
      let newList := replaceAtIndices argsKwargsList collected.1 outTensors
      let argsList2 := newList.take argsList.length
      let kwargsList2 := newList.drop argsList.length
      (((treeUnflatten args argsList2).1, (treeUnflatten kwargs kwargsList2).1),
       some inpTensors)

/-! ## Claim C9: the hook bridge is an identity op -/

/-- C9: `RegisterPostBackwardHook` is an identity op: its forward returns the
input tensors unchanged (saving the param group on the context), and its
backward invokes `_post_backward` on the bound param group and passes every
incoming gradient through unchanged (with `None` for the param-group slot). -/
theorem registerPostBackwardHook_C9 (pg : FSDPParamGroup) (inputs : List Leaf)
    (ctx : HookContext) (grads : List Nat) :
    (RegisterPostBackwardHook.forward pg inputs).2 = inputs ∧
    (RegisterPostBackwardHook.forward pg inputs).1.paramGroup = pg ∧
    (RegisterPostBackwardHook.backward ctx grads).1 = ctx.paramGroup.postBackward ∧
    (RegisterPostBackwardHook.backward ctx grads).2 = (none, grads) :=
  ⟨rfl, rfl, rfl, rfl⟩

/-! ## Claim C10: the rewrite preserves the argument trees -/

mutual

theorem treeUnflatten_flatten : ∀ (t : PyTree) (rest : List Leaf),
    treeUnflatten t (treeFlatten t ++ rest) = (t, rest)
  | .leaf l, rest => by
    simp [treeFlatten, treeUnflatten]
  | .node cs, rest => by
    simp only [treeFlatten, treeUnflatten]
    rw [treeUnflattenList_flattenList cs rest]

theorem treeUnflattenList_flattenList : ∀ (ts : List PyTree) (rest : List Leaf),
    treeUnflattenList ts (treeFlattenList ts ++ rest) = (ts, rest)
  | [], rest => by
    simp [treeFlattenList, treeUnflattenList]
  | t :: ts, rest => by
    simp only [treeFlattenList, treeUnflattenList, List.append_assoc]
    rw [treeUnflatten_flatten t (treeFlattenList ts ++ rest)]
    rw [treeUnflattenList_flattenList ts rest]

end

theorem set_append_cons (pre : List Leaf) (l : Leaf) (ls : List Leaf) :
    (pre ++ l :: ls).set pre.length l = pre ++ l :: ls := by
  induction pre with
  | nil => rfl
  | cons p ps ih => simp [List.set, ih]

theorem replaceAtIndices_collectGradTensors (suffix : List Leaf) :
    ∀ (pre xs : List Leaf), xs = pre ++ suffix →
      replaceAtIndices xs (collectGradTensors suffix pre.length).1
        (collectGradTensors suffix pre.length).2 = xs := by
  induction suffix with
  | nil =>
    intro pre xs hxs
    rfl
  | cons l ls ih =>
    intro pre xs hxs
    have hnext := ih (pre ++ [l]) xs (by rw [hxs]; simp)
    rw [List.length_append, List.length_singleton] at hnext
    by_cases hl : l.isTensorRequiringGrad
    · simp only [collectGradTensors, hl, if_true]
      show replaceAtIndices (xs.set pre.length l)
        (collectGradTensors ls (pre.length + 1)).1
        (collectGradTensors ls (pre.length + 1)).2 = xs
      have hset : xs.set pre.length l = xs := by
        rw [hxs]
        exact set_append_cons pre l ls
      rw [hset]
      exact hnext
    · simp only [collectGradTensors, hl, if_false]
      exact hnext

theorem collectGradTensors_tensors (ls : List Leaf) :
    ∀ i, (collectGradTensors ls i).2 = ls.filter Leaf.isTensorRequiringGrad := by
  induction ls with
  | nil => intro i; rfl
  | cons l ls ih =>
    intro i
    by_cases hl : l.isTensorRequiringGrad
    · simp [collectGradTensors, hl, ih]
    · simp [collectGradTensors, hl, ih]

/-- C10: for every `args` and `kwargs`, if gradient recording is disabled or
no flattened entry is a tensor with `requires_grad`, then
`_register_post_backward_hook` returns `args` and `kwargs` unchanged and
installs no hook; otherwise the grad-requiring tensor entries are routed
through the hook op (which returns them unchanged), so the tree structure and
every entry — in particular all non-grad entries — are preserved, and the
hook captures exactly the grad-requiring tensors. -/
theorem registerPostBackwardHook_C10 (g : FSDPParamGroup) (gradEnabled : Bool)
    (args kwargs : PyTree) :
    ((gradEnabled = false ∨
        (treeFlatten args ++ treeFlatten kwargs).filter Leaf.isTensorRequiringGrad
          = []) →
      g.registerPostBackwardHook gradEnabled args kwargs = ((args, kwargs), none)) ∧
    (g.registerPostBackwardHook gradEnabled args kwargs).1 = (args, kwargs) ∧
    (gradEnabled = true →
      (treeFlatten args ++ treeFlatten kwargs).filter Leaf.isTensorRequiringGrad
        ≠ [] →
      (g.registerPostBackwardHook gradEnabled args kwargs).2 =
        some ((treeFlatten args ++ treeFlatten kwargs).filter
          Leaf.isTensorRequiringGrad)) := by
  cases gradEnabled with
  | false =>
    refine ⟨fun _ => rfl, rfl, fun hc => absurd hc (by simp)⟩
  | true =>
    have htensors : (collectGradTensors (treeFlatten args ++ treeFlatten kwargs) 0).2 =
        (treeFlatten args ++ treeFlatten kwargs).filter Leaf.isTensorRequiringGrad :=
      collectGradTensors_tensors _ 0
    by_cases hempty :
        (treeFlatten args ++ treeFlatten kwargs).filter Leaf.isTensorRequiringGrad = []
    · have hlen : (collectGradTensors (treeFlatten args ++ treeFlatten kwargs) 0).2.length = 0 := by
        rw [htensors, hempty]
        rfl
      have heq : g.registerPostBackwardHook true args kwargs = ((args, kwargs), none) := by
        unfold FSDPParamGroup.registerPostBackwardHook
        rw [if_neg (show ¬¬(true = true) by simp)]
        dsimp only
        rw [if_pos hlen]
      exact ⟨fun _ => heq, by rw [heq], fun _ hc => absurd hempty hc⟩
    · have hlen : (collectGradTensors (treeFlatten args ++ treeFlatten kwargs) 0).2.length ≠ 0 := by
        rw [htensors]
        simpa [List.length_eq_zero] using hempty
      have hreplace : replaceAtIndices (treeFlatten args ++ treeFlatten kwargs)
          (collectGradTensors (treeFlatten args ++ treeFlatten kwargs) 0).1
          (collectGradTensors (treeFlatten args ++ treeFlatten kwargs) 0).2 =
          treeFlatten args ++ treeFlatten kwargs :=
        replaceAtIndices_collectGradTensors _ [] _ rfl
      have hargs : treeUnflatten args
          ((treeFlatten args ++ treeFlatten kwargs).take (treeFlatten args).length) =
          (args, []) := by
        rw [List.take_left]
        have := treeUnflatten_flatten args []
        simpa using this
      have hkwargs : treeUnflatten kwargs
          ((treeFlatten args ++ treeFlatten kwargs).drop (treeFlatten args).length) =
          (kwargs, []) := by
        rw [List.drop_left]
        have := treeUnflatten_flatten kwargs []
        simpa using this
      have heq : g.registerPostBackwardHook true args kwargs =
          ((args, kwargs), some ((treeFlatten args ++ treeFlatten kwargs).filter
            Leaf.isTensorRequiringGrad)) := by
        unfold FSDPParamGroup.registerPostBackwardHook
        rw [if_neg (show ¬¬(true = true) by simp)]
        dsimp only
        rw [if_neg hlen]
        dsimp only [RegisterPostBackwardHook.forward]
        rw [hreplace, hargs, hkwargs, htensors]
      refine ⟨?_, by rw [heq], fun _ _ => by rw [heq]⟩
      rintro (hc | hc)
      · exact absurd hc (by simp)
      · exact absurd hc hempty

def sampleArgs : PyTree :=
  PyTree.node [PyTree.leaf (Leaf.tensor 0 true), PyTree.leaf (Leaf.other 5)]

def sampleKwargs : PyTree :=
  PyTree.node []

theorem registerPostBackwardHook_C10_witness :
    (sampleGroupNone.registerPostBackwardHook false sampleArgs sampleKwargs =
      ((sampleArgs, sampleKwargs), none)) ∧
    (sampleGroupNone.registerPostBackwardHook true sampleArgs sampleKwargs).1 =
      (sampleArgs, sampleKwargs) ∧
    (sampleGroupNone.registerPostBackwardHook true sampleArgs sampleKwargs).2 =
      some ((treeFlatten sampleArgs ++ treeFlatten sampleKwargs).filter
        Leaf.isTensorRequiringGrad) :=
  ⟨(registerPostBackwardHook_C10 sampleGroupNone false sampleArgs sampleKwargs).1
     (Or.inl rfl),
   (registerPostBackwardHook_C10 sampleGroupNone true sampleArgs sampleKwargs).2.1,
   (registerPostBackwardHook_C10 sampleGroupNone true sampleArgs sampleKwargs).2.2
     rfl
     (by simp [treeFlatten, treeFlattenList, sampleArgs, sampleKwargs,
       Leaf.isTensorRequiringGrad])⟩

end FSDP
